import Mathlib

/-!
Verification development for the PES ROM library scanner
(`src/python/pes/romscan.py`, with the data model of `src/python/pes/sql.py`
and the settings parsing of `src/python/pes/common.py`).

The Python source is shallowly embedded: ORM tables become lists of
structures, the per-ROM scan task (`GamesDbRomTask.run`) becomes a pure
function from a database state and an environment (HTTP responses, file
system, checksum tool) to a result and a new database state, and the
orchestrator (`RomScanThread`) becomes explicit state passing.  Timestamps
(`added`, `lastPlayed`), autoincrement ids and columns never read by the
scanner (`favourite`, `playCount`) are omitted from the `Game` embedding.
-/

namespace PesScan

/-! ### Python path and string helpers

`os.path.basename`, `os.path.splitext`, `os.path.join` (POSIX flavour) and
the slicing idiom `url[url.rfind('.'):]` used by `romscan.py`. -/

/-- Python `s.startswith(t)` (on full strings), via character lists so
that proofs can evaluate it by kernel reduction. -/
def pyStartsWith (s t : String) : Bool :=
  t.toList.isPrefixOf s.toList

/-- Python `s.endswith(t)` (on full strings), via character lists. -/
def pyEndsWith (s t : String) : Bool :=
  t.toList.isSuffixOf s.toList

/-- Python `s.upper()` for the ASCII strings handled here. -/
def pyUpper (s : String) : String :=
  String.mk (s.toList.map Char.toUpper)

/-- Python `s.lower()` for the ASCII strings handled here. -/
def pyLower (s : String) : String :=
  String.mk (s.toList.map Char.toLower)

/-- Python whitespace as stripped by `str.strip()`. -/
def isPySpace (c : Char) : Bool :=
  c == ' ' || c == '\t' || c == '\n' || c == '\r' || c == '\x0b' || c == '\x0c'

/-- Python `s.strip()`. -/
def pyStrip (s : String) : String :=
  String.mk (((s.toList.dropWhile isPySpace).reverse.dropWhile isPySpace).reverse)

/-- Index of the last occurrence of `c` in `cs`, if any
(Python `str.rfind`, with `none` for the -1 case). -/
def rfindIdx (cs : List Char) (c : Char) : Option Nat :=
  match cs.reverse.findIdx? (· == c) with
  | none => none
  | some i => some (cs.length - 1 - i)

/-- Python `os.path.split(p)[1]` / `os.path.basename(p)`:
the characters after the last slash. -/
def basename (p : String) : String :=
  String.mk ((p.toList.reverse.takeWhile (· ≠ '/')).reverse)

/-- Python `os.path.splitext(name)[0]` for a name containing no slash
(the scanner always applies it after `basename`): chop the suffix starting
at the last dot, except when all characters before the last dot are dots.  -/
def splitextRoot (p : String) : String :=
  let cs := p.toList
  match rfindIdx cs '.' with
  | none => p
  | some d => if (cs.take d).any (· ≠ '.') then String.mk (cs.take d) else p

/-- The ROM display-name stem computed at the top of `GamesDbRomTask.run`:
`os.path.splitext(os.path.basename(rom))[0]`. -/
def romNameOf (rom : String) : String :=
  splitextRoot (basename rom)

/-- Python `url[url.rfind('.'):]`: the suffix from the last dot; when the
url has no dot, `rfind` returns -1 and the slice is `url[-1:]`, the last
character (empty for the empty string). -/
def urlExtension (url : String) : String :=
  let cs := url.toList
  match rfindIdx cs '.' with
  | some d => String.mk (cs.drop d)
  | none => String.mk (cs.drop (cs.length - 1))

/-- Python `os.path.join(a, b)` for POSIX paths. -/
def pathJoin (a b : String) : String :=
  if pyStartsWith b "/" then b
  else if a == "" || pyEndsWith a "/" then a ++ b
  else a ++ "/" ++ b

/-- Python `s.replace(" ", "")` (and the SQL `replace(name, ' ', '')`). -/
def removeSpaces (s : String) : String :=
  String.mk (s.toList.filter (fun c => c ≠ ' '))

/-- The name normalisation both sides of the name-match query apply:
strip spaces, then lower-case. -/
def normName (s : String) : String :=
  pyLower (removeSpaces s)

/-! ### Data model (`src/python/pes/sql.py`) -/

/-- One row of `gamesdb_screenshot` (the three URL variants). -/
structure GamesDbScreenshot where
  large : Option String
  medium : Option String
  original : Option String
deriving Repr, DecidableEq

/-- One row of `gamesdb_game` (the columns the scanner reads).
`screenshots` embeds the `GamesDbGame.screenshots` relationship
(ordered by id). -/
structure GamesDbGame where
  id : Nat
  retroId : Option Nat
  name : String
  boxArtBackOriginal : Option String
  boxArtBackMedium : Option String
  boxArtBackLarge : Option String
  boxArtFrontOriginal : Option String
  boxArtFrontMedium : Option String
  boxArtFrontLarge : Option String
  screenshots : List GamesDbScreenshot
deriving Repr, DecidableEq

/-- One row of `retroachievement_game`; `rasums` embeds the
`RetroAchievementGame.hashes` relationship (the `rasum` column of each
`retroachievement_game_hash` child row). -/
structure RetroAchievementGame where
  id : Nat
  retroConsoleId : Nat
  rasums : List String
deriving Repr, DecidableEq

/-- One row of `console` (the columns the scanner reads). -/
structure Console where
  id : Nat
  name : String
  retroId : Option Nat
  nocoverart : String
deriving Repr, DecidableEq

/-- One row of `game` (the columns the scanner reads or writes; timestamps,
`favourite` and `playCount` omitted).  `screenshots` embeds the paths of the
`GameScreenshot` child rows. -/
structure Game where
  consoleId : Nat
  name : String
  rasum : Option String
  gamesDbId : Option Nat
  retroId : Option Nat
  path : String
  coverartFront : Option String
  coverartBack : Option String
  fileSize : Nat
  found : Bool
  screenshots : List String
deriving Repr, DecidableEq

/-- The database state the scanner touches.  `games` is mutable to the
scanner; the two catalog tables are read-only.  Lists are kept in id
order, matching the ORM relationship ordering. -/
structure DB where
  games : List Game
  retroGames : List RetroAchievementGame
  gamesDbGames : List GamesDbGame
deriving Repr, DecidableEq

/-- Python truthiness of an optional integer column
(`if self._console.retroId:` is false for both NULL and 0). -/
def truthyNat : Option Nat → Bool
  | none => false
  | some n => n != 0

/-- Python truthiness of an optional text column
(`if game.gamesDbGame.boxArtFrontLarge:` is false for NULL and ""). -/
def truthyStr : Option String → Bool
  | none => false
  | some s => s != ""

/-- The committed mutation of step 1: set the row's found flag. -/
def setFound (g : Game) : Game := { g with found := true }

/-- Update the first list element satisfying `p` (the effect of committing a
mutation of the row returned by `.first()`). -/
def updateFirst (p : α → Bool) (f : α → α) : List α → List α
  | [] => []
  | x :: xs => if p x then f x :: xs else x :: updateFirst p f xs

/-- The `game.gamesDbGame` many-to-one relationship: resolve the
`gamesDbId` foreign key (NULL or a dangling id give no row). -/
def lookupGamesDb (db : DB) (gamesDbId : Option Nat) : Option GamesDbGame :=
  match gamesDbId with
  | none => none
  | some i => db.gamesDbGames.find? (fun g => g.id == i)

/-- The `retroGame.gamesDbGame` one-to-many relationship: all `GamesDbGame`
rows whose `retroId` foreign key is this `retroachievement_game` row. -/
def gamesDbGamesOfRetro (db : DB) (rg : RetroAchievementGame) : List GamesDbGame :=
  db.gamesDbGames.filter (fun g => g.retroId == some rg.id)

/-! ### Scan task results (`RomTaskResult`, `RomProcessResult`) -/

/-- The four `RomTaskResult.STATE_*` constants. -/
inductive RomTaskState
  | added
  | updated
  | failed
  | skipped
deriving Repr, DecidableEq

/-- A `RomTaskResult`: terminal state, display name, chosen cover-art path. -/
structure RomTaskResult where
  state : RomTaskState
  name : String
  coverart : Option String
deriving Repr, DecidableEq

/-- The environment a task consumes: module-level directory constants
(`pes.resourcesDir`, `pes.userCoverartDir`, `pes.userScreenshotDir`), the
`rasum` checksum tool, HTTP fetches (true when the GET returned status 200
and the image was written and re-scaled without error) and the file system
(`os.path.exists`, `os.path.getsize`). -/
structure Env where
  resourcesDir : String
  userCoverartDir : String
  userScreenshotDir : String
  rasum : String → Nat → String
  httpOk : String → Bool
  fileExists : String → Bool
  fileSize : String → Nat

/-- `RomTask._getNocoverart`: `os.path.join(pes.resourcesDir, console.nocoverart)`. -/
def nocoverartPath (env : Env) (console : Console) : String :=
  pathJoin env.resourcesDir console.nocoverart

/-- The Python test `retroId == None or retroId == 0` (line 303). -/
def pyFalsyIdOpt : Option Nat → Bool
  | none => true
  | some n => n == 0

/-- Front cover-art URL candidates in the order the task builds them:
large, then medium, then original, keeping only truthy columns. -/
def frontArtUrls (g : GamesDbGame) : List String :=
  (if truthyStr g.boxArtFrontLarge then [g.boxArtFrontLarge.getD ""] else []) ++
  (if truthyStr g.boxArtFrontMedium then [g.boxArtFrontMedium.getD ""] else []) ++
  (if truthyStr g.boxArtFrontOriginal then [g.boxArtFrontOriginal.getD ""] else [])

/-- Back cover-art URL candidates: large, medium, original. -/
def backArtUrls (g : GamesDbGame) : List String :=
  (if truthyStr g.boxArtBackLarge then [g.boxArtBackLarge.getD ""] else []) ++
  (if truthyStr g.boxArtBackMedium then [g.boxArtBackMedium.getD ""] else []) ++
  (if truthyStr g.boxArtBackOriginal then [g.boxArtBackOriginal.getD ""] else [])

/-- URL candidates of one catalog screenshot: large, medium, original. -/
def screenshotUrls (sc : GamesDbScreenshot) : List String :=
  (if truthyStr sc.large then [sc.large.getD ""] else []) ++
  (if truthyStr sc.medium then [sc.medium.getD ""] else []) ++
  (if truthyStr sc.original then [sc.original.getD ""] else [])

/-- Outcome of the front cover-art URL loop: the `imgSaved` flag, the value
of the Python `path` variable when the loop exits, and whether
`romTaskResult.state` was set to `STATE_UPDATED` (a successful download for
an already-known game). -/
structure FrontArtOutcome where
  imgSaved : Bool
  path : String
  stateUpdated : Bool
deriving Repr, DecidableEq

/-- The front cover-art loop (romscan.py lines 355-384).  For each URL the
target path is computed; when `fullscan` is set or the file is absent the
URL is fetched — on success the loop breaks (flagging `STATE_UPDATED` for a
rescan), on failure it moves to the next URL; when the file already exists
the loop breaks with `imgSaved` set and no fetch. -/
def frontArtLoop (env : Env) (console : Console) (romName : String)
    (fullscan newGame : Bool) : List String → String → FrontArtOutcome
  | [], lastPath => ⟨false, lastPath, false⟩
  | url :: rest, _ =>
    let path := pathJoin (pathJoin env.userCoverartDir console.name)
      (romName ++ "-front" ++ urlExtension url)
    if fullscan || !env.fileExists path then
      if env.httpOk url then ⟨true, path, !newGame⟩
      else frontArtLoop env console romName fullscan newGame rest path
    else ⟨true, path, false⟩

/-- The back cover-art loop (lines 402-432); returns the path committed to
`game.coverartBack`, if any.  The break fires only when `imgSaved and
newGame`; for a rescan the loop walks every URL without a database write. -/
def backArtLoop (env : Env) (console : Console) (romName : String)
    (fullscan newGame : Bool) : List String → Bool → Option String
  | [], _ => none
  | url :: rest, imgSaved0 =>
    let path := pathJoin (pathJoin env.userCoverartDir console.name)
      (romName ++ "-back" ++ urlExtension url)
    let imgSaved :=
      if fullscan || !env.fileExists path then imgSaved0 || env.httpOk url else true
    if imgSaved && newGame then some path
    else backArtLoop env console romName fullscan newGame rest imgSaved

/-- Lines 466 and 480 test `if session.query(GameScreenshot).filter(...):`
— the truthiness of the `Query` object itself (no `.first()` or
`.count()`), which in Python is always `True`. -/
def screenshotQueryTruthy : Bool := true

/-- The URL loop for one catalog screenshot (lines 445-485): returns the
updated `count` and the paths appended to the `screenshots` list (zero or
one).  `count` increments on a successful download or an already-present
file; `mustSave` is cleared for a rescan by the always-true `Query`
truthiness test. -/
def screenshotUrlLoop (env : Env) (console : Console) (romName : String)
    (fullscan newGame : Bool) (count : Nat) : List String → Nat × List String
  | [] => (count, [])
  | url :: rest =>
    let path := pathJoin (pathJoin env.userScreenshotDir console.name)
      (romName ++ "-" ++ toString (count + 1) ++ urlExtension url)
    let mustSave := !(!newGame && screenshotQueryTruthy)
    if fullscan || !env.fileExists path then
      if env.httpOk url then
        (count + 1, if mustSave then [path] else [])
      else screenshotUrlLoop env console romName fullscan newGame count rest
    else
      (count + 1, if mustSave then [path] else [])

/-- The outer screenshot loop (lines 434-488): walk the catalog
screenshots, accumulating saved paths; after each entry the loop breaks
once `count > 3`. -/
def screenshotsLoop (env : Env) (console : Console) (romName : String)
    (fullscan newGame : Bool) : List GamesDbScreenshot → Nat → List String → List String
  | [], _, acc => acc
  | sc :: rest, count, acc =>
    let r := screenshotUrlLoop env console romName fullscan newGame count (screenshotUrls sc)
    if r.1 > 3 then acc ++ r.2
    else screenshotsLoop env console romName fullscan newGame rest r.1 (acc ++ r.2)

/-- Effect of the enrichment block on the `game` row and the task result:
the updated row, whether `romTaskResult.state` was set to `STATE_UPDATED`,
and the assignment to `romTaskResult.coverart` (line 388), if it happened. -/
structure EnrichOutcome where
  game : Game
  stateUpdated : Bool
  resultCoverart : Option (Option String)
deriving Repr, DecidableEq

/-- The enrichment block body under `if game.gamesDbGame:` (lines 340-495),
given the resolved `game.gamesDbGame` relationship. -/
def enrich (env : Env) (console : Console) (romName : String)
    (fullscan newGame : Bool) (gdb : Option GamesDbGame) (game : Game) : EnrichOutcome :=
  match gdb with
  | none => ⟨game, false, none⟩
  | some g =>
    let urls := frontArtUrls g
    if urls.length > 0 then
      let fo := frontArtLoop env console romName fullscan newGame urls ""
      let front := if fo.imgSaved then fo.path else nocoverartPath env console
      let game1 :=
        if newGame then { game with coverartFront := some front } else game
      let rc : Option (Option String) :=
        if newGame && fo.imgSaved then some game1.coverartFront else none
      let game2 :=
        match backArtLoop env console romName fullscan newGame (backArtUrls g) false with
        | some p => { game1 with coverartBack := some p }
        | none => game1
      let shots := screenshotsLoop env console romName fullscan newGame g.screenshots 0 []
      let game3 := if shots.length > 0 then { game2 with screenshots := shots } else game2
      ⟨game3, fo.stateUpdated, rc⟩
    else ⟨game, false, none⟩

/-- The checksum computed on the new-game path (lines 260-263): only when
the console's `retroId` is truthy. -/
def taskRasum (env : Env) (console : Console) (rom : String) : Option String :=
  if truthyNat console.retroId then some (env.rasum rom (console.retroId.getD 0))
  else none

/-- The checksum-match query (line 265): the first
`retroachievement_game` row on this console with the computed hash among
its child hashes. -/
def taskRetroGame (env : Env) (console : Console) (rom : String) (db : DB) :
    Option RetroAchievementGame :=
  match taskRasum env console rom with
  | some rs =>
    db.retroGames.find? (fun rg =>
      rg.retroConsoleId == console.retroId.getD 0 && rg.rasums.contains rs)
  | none => none

/-- Steps 3 and 4 (lines 292-333): the name-match row — carrying over a
bare achievement id from a dangling step-2 match — or the bare row whose
`gamesDbId` and `retroId` fall back to the column default 0. -/
def newGameRowByName (env : Env) (console : Console) (rom : String) (db : DB)
    (retroGame : Option RetroAchievementGame) : Game :=
  match db.gamesDbGames.find? (fun g => normName g.name == normName (romNameOf rom)) with
  | some gdb =>
    { consoleId := console.id, name := gdb.name, rasum := taskRasum env console rom,
      gamesDbId := some gdb.id,
      retroId :=
        if pyFalsyIdOpt gdb.retroId then
          match retroGame with
          | some rg => some rg.id
          | none => gdb.retroId
        else gdb.retroId,
      path := rom, fileSize := env.fileSize rom,
      coverartFront := some (nocoverartPath env console),
      coverartBack := none, found := true, screenshots := [] }
  | none =>
    { consoleId := console.id, name := romNameOf rom, rasum := taskRasum env console rom,
      gamesDbId := some 0, retroId := some 0, path := rom,
      fileSize := env.fileSize rom,
      coverartFront := some (nocoverartPath env console),
      coverartBack := none, found := true, screenshots := [] }

/-- The `Game` row built for a ROM not yet in the database (lines 258-333):
step 2 (checksum match with a paired `GamesDbGame`), falling back to the
name match and the bare row. -/
def newGameRow (env : Env) (console : Console) (rom : String) (db : DB) : Game :=
  match taskRetroGame env console rom db with
  | some rg =>
    match (gamesDbGamesOfRetro db rg).head? with
    | some gdb =>
      { consoleId := console.id, name := gdb.name, rasum := taskRasum env console rom,
        gamesDbId := some gdb.id, retroId := gdb.retroId, path := rom,
        fileSize := env.fileSize rom, coverartFront := none,
        coverartBack := none, found := true, screenshots := [] }
    | none => newGameRowByName env console rom db (some rg)
  | none => newGameRowByName env console rom db none

/-- `GamesDbRomTask.run` (romscan.py lines 230-497) as a pure function from
the database state to the task result and the new database state.  The
lock serialises the queries and commits; with tasks modelled one at a time
the critical sections appear in program order. -/
def gamesDbRomTaskRun (env : Env) (console : Console) (rom : String)
    (fullscan : Bool) (db : DB) : RomTaskResult × DB :=
  let romName := romNameOf rom
  match db.games.find? (fun g => g.path == rom) with
  | some result =>
    -- step 1, exact rediscovery: mark found, commit, Skipped
    let game := { result with found := true }
    let games1 := updateFirst (fun g => g.path == rom) setFound db.games
    let db1 : DB := { db with games := games1 }
    let r1 : RomTaskResult := ⟨.skipped, game.name, game.coverartFront⟩
    -- enrichment block guard: `if game and (newGame or self._fullscan)` with newGame False
    if fullscan then
      let e := enrich env console romName fullscan false (lookupGamesDb db1 game.gamesDbId) game
      let r2 : RomTaskResult :=
        { state := if e.stateUpdated then .updated else r1.state,
          name := e.game.name,
          coverart := match e.resultCoverart with | some c => c | none => r1.coverart }
      (r2, { db1 with games := updateFirst (fun g => g.path == rom) (fun _ => e.game) db1.games })
    else (r1, db1)
  | none =>
    let game := newGameRow env console rom db
    let db2 : DB := { db with games := db.games ++ [game] }
    -- enrichment block, entered for every new game (line 335)
    let e := enrich env console romName fullscan true (lookupGamesDb db2 game.gamesDbId) game
    let r2 : RomTaskResult :=
      { state := if e.stateUpdated then .updated else .added,
        name := e.game.name,
        coverart := match e.resultCoverart with | some c => c | none => none }
    (r2, { db2 with games := updateFirst (fun g => g.path == rom) (fun _ => e.game) db2.games })

/-! ### Worker processes (`RomProcess.run`) and the results queue -/

/-- `RomProcessResult`: the per-worker aggregate counts. -/
structure RomProcessResult where
  added : Nat
  skipped : Nat
  updated : Nat
  failed : Nat
deriving Repr, DecidableEq

/-- The zero counts a worker starts from. -/
def emptyProcessResult : RomProcessResult := ⟨0, 0, 0, 0⟩

/-- `RomProcessResult.addRomTaskResult`. -/
def addRomTaskResult (a : RomProcessResult) (r : RomTaskResult) : RomProcessResult :=
  match r.state with
  | .updated => { a with updated := a.updated + 1 }
  | .added => { a with added := a.added + 1 }
  | .failed => { a with failed := a.failed + 1 }
  | .skipped => { a with skipped := a.skipped + 1 }

/-- An item a worker puts on the shared results queue: line 156 puts an
individual `RomTaskResult` when a task raised, line 158 puts the worker's
aggregate `RomProcessResult` after the poison pill. -/
inductive ResultItem
  | taskResult (r : RomTaskResult)
  | processResult (a : RomProcessResult)
deriving Repr, DecidableEq

/-- One task execution as the worker sees it: `task.run` either returns a
result or raises an unhandled exception. -/
inductive TaskOutcome
  | ret (r : RomTaskResult)
  | raised
deriving Repr, DecidableEq

/-- `RomProcess.run` (lines 136-159) for one worker: the list is the
sequence of real tasks the worker pulls before its poison pill, each
abstracted to its outcome; `exitEvent` is the cancellation flag sampled at
each pull (held constant here).  Returns the items the worker puts on the
results queue, in order: one `RomTaskResult(STATE_FAILED, "")` per raising
task, then the aggregate.  Tasks pulled with the flag set are acknowledged
without running and contribute nothing. -/
def romProcessRun (exitEvent : Bool) : List TaskOutcome → RomProcessResult → List ResultItem
  | [], acc => [.processResult acc]
  | t :: rest, acc =>
    if exitEvent then romProcessRun exitEvent rest acc
    else
      match t with
      | .ret r => romProcessRun exitEvent rest (addRomTaskResult acc r)
      | .raised => .taskResult ⟨.failed, "", none⟩ :: romProcessRun exitEvent rest acc

/-- The global counters of `RomScanThread`. -/
structure ScanCounters where
  added : Nat
  updated : Nat
  failed : Nat
  skipped : Nat
deriving Repr, DecidableEq

/-- The drain loop of `RomScanThread.run` (lines 763-770): every dequeued
item is used as a `RomProcessResult`; dequeuing an individual
`RomTaskResult` reads its missing attribute `added`, which raises
`AttributeError`. -/
def drainResults : List ResultItem → ScanCounters → Except String ScanCounters
  | [], c => .ok c
  | .processResult a :: rest, c =>
    drainResults rest ⟨c.added + a.added, c.updated + a.updated,
      c.failed + a.failed, c.skipped + a.skipped⟩
  | .taskResult _ :: _, _ => .error "AttributeError"

/-! ### Reconciliation (`RomScanThread.run` lines 772-781) -/

/-- The row criterion produced by `filter(not pes.sql.Game.found)` on line
775.  `pes.sql.Game.found` is an ORM `InstrumentedAttribute`, an object
with default truthiness, so the Python expression `not pes.sql.Game.found`
evaluates to the constant `False` before `filter` ever sees it, and
`filter(False)` is an always-false criterion. -/
def notGameFoundCriterion (g : Game) : Bool :=
  let gameFoundAttrTruthy := true
  !gameFoundAttrTruthy

/-- The reconciliation pass: on an interrupted run, set `found := true` on
the rows matching `filter(not pes.sql.Game.found)` (the `__deleted`
counter, reset to 0 at the start of the run, is untouched); on a normal
run, count the rows with `found == False`, delete them when the count is
positive, and record the count.  Returns the new game table and the
`Deleted` counter. -/
def reconcile (interrupted : Bool) (games : List Game) : List Game × Nat :=
  if interrupted then
    (games.map (fun g => if notGameFoundCriterion g then { g with found := true } else g), 0)
  else
    let deleted := (games.filter (fun g => g.found == false)).length
    (games.filter (fun g => !(g.found == false)), deleted)

/-! ### File enumeration (`RomScanThread.__extensionOk` and line 722) -/

/-- `RomScanThread.__extensionOk` (lines 611-618): each configured
extension is stripped, and the filename is kept if it ends with the
extension as written or with its fully upper-cased variant. -/
def extensionOk (extensions : List String) (filename : String) : Bool :=
  extensions.any (fun e => pyEndsWith filename (pyStrip e) || pyEndsWith filename (pyUpper (pyStrip e)))

/-- The per-file keep test of the enumeration loop (line 722):
`(ignoreRoms == None or f not in ignoreRoms) and self.__extensionOk(extensions, f)`. -/
def keepFile (extensions : List String) (ignoreRoms : Option (List String)) (f : String) : Bool :=
  (match ignoreRoms with
   | none => true
   | some l => !l.contains f) && extensionOk extensions f

/-- Modelled from the spec for comparison with `keepFile`: "keep a file if
its extension matches (case-insensitive) and it is not ignore-listed". -/
def specKeepFile (extensions : List String) (ignoreRoms : Option (List String)) (f : String) : Bool :=
  (match ignoreRoms with
   | none => true
   | some l => !l.contains f) &&
  extensions.any (fun e => pyEndsWith (pyLower f) (pyLower (pyStrip e)))

/-! ### `RomScanThread` state, progress and cancellation -/

/-- The `RomScanThread` fields read by `getProgress`, `isRunning`, `stop`
and `getInterrupted`, plus the queue size and the emitted state-change
signals.  `tasksSet` is `self.__tasks != None`; `qsize` is
`self.__tasks.qsize()`. -/
structure ScanThreadState where
  started : Bool
  done : Bool
  interrupted : Bool
  processStarted : Bool
  tasksSet : Bool
  exitEventSet : Bool
  romTotal : Nat
  qsize : Nat
  romProcessTotal : Nat
  emitted : List String
deriving Repr, DecidableEq

/-- `RomScanThread.isRunning`. -/
def isRunning (s : ScanThreadState) : Bool := s.started && !s.done

/-- `RomScanThread.getProgress` (lines 645-663), reading the queue size at
call time; Python floats are modelled as rationals. -/
def getProgress (s : ScanThreadState) : ℚ :=
  if !isRunning s && s.done then 1
  else if !s.started || !s.tasksSet || s.romTotal == 0 || !s.processStarted then 0
  else if s.qsize == 0 then 1
  else if s.qsize ≤ s.romProcessTotal then 1
  else ((s.romTotal : ℚ) - ((s.qsize : ℚ) - (s.romProcessTotal : ℚ))) / (s.romTotal : ℚ)

/-- `RomScanThread.stop` (lines 788-795): while a run is active, set the
interrupted flag and the exit event; otherwise mark the thread done.  In
both cases emit "stopped". -/
def stop (s : ScanThreadState) : ScanThreadState :=
  if s.started && !s.done then
    { s with interrupted := true, exitEventSet := true, emitted := s.emitted ++ ["stopped"] }
  else
    { s with done := true, emitted := s.emitted ++ ["stopped"] }

/-- The transitions a single scan run performs on the fields `getProgress`
reads, in the order they appear in `RomScanThread.run`, plus `stop` calls
from the GUI thread.  `startProcesses` carries the program-point fact that
the queue then holds at most one item per counted ROM plus the poison
pills. -/
inductive ScanStep : ScanThreadState → ScanThreadState → Prop
  | beginRun (s : ScanThreadState) (h1 : s.started = false) (h2 : s.done = false)
      (h3 : s.processStarted = false) (h4 : s.tasksSet = false) :
      ScanStep s { s with started := true, interrupted := false, romTotal := 0,
                          emitted := s.emitted ++ ["started"] }
  | createQueue (s : ScanThreadState) (h1 : s.started = true) (h2 : s.done = false)
      (h3 : s.processStarted = false) :
      ScanStep s { s with tasksSet := true, qsize := 0 }
  | enqueueTask (s : ScanThreadState) (h1 : s.started = true) (h2 : s.done = false)
      (h3 : s.processStarted = false) :
      ScanStep s { s with qsize := s.qsize + 1 }
  | addConsoleTotal (s : ScanThreadState) (n : Nat) (h1 : s.started = true)
      (h2 : s.done = false) (h3 : s.processStarted = false) :
      ScanStep s { s with romTotal := s.romTotal + n }
  | noRomsDone (s : ScanThreadState) (h1 : s.started = true) (h2 : s.done = false)
      (h3 : s.processStarted = false) (h4 : s.romTotal = 0) :
      ScanStep s { s with done := true, emitted := s.emitted ++ ["done"] }
  | emitUpdate (s : ScanThreadState) (h1 : s.started = true) (h2 : s.done = false)
      (h3 : s.processStarted = false) :
      ScanStep s { s with emitted := s.emitted ++ ["update"] }
  | startProcesses (s : ScanThreadState) (h1 : s.started = true) (h2 : s.done = false)
      (h3 : s.qsize ≤ s.romTotal + s.romProcessTotal) :
      ScanStep s { s with processStarted := true }
  | consumeTask (s : ScanThreadState) (h1 : s.processStarted = true) (h2 : 0 < s.qsize) :
      ScanStep s { s with qsize := s.qsize - 1 }
  | finishRun (s : ScanThreadState) (h1 : s.started = true) (h2 : s.done = false) :
      ScanStep s { s with done := true, emitted := s.emitted ++ ["done"] }
  | stopCall (s : ScanThreadState) : ScanStep s (stop s)

/-- The run invariant behind the progress bound: once the workers have
started, the queue never holds more than the counted ROMs plus the poison
pills. -/
def QueueInv (s : ScanThreadState) : Prop :=
  s.processStarted = true → s.qsize ≤ s.romTotal + s.romProcessTotal

/-! ### Sequential scan run (`RomScanThread.run`) -/

/-- The queued tasks executed one after the other (the shared lock
serialises every database access and every checksum invocation; the
sequential order is one admissible interleaving of the worker pool),
threading the database state and collecting the task results. -/
def runTasks (env : Env) (fullscan : Bool) : List (Console × String) → DB → List RomTaskResult × DB
  | [], db => ([], db)
  | (c, rom) :: rest, db =>
    let r := gamesDbRomTaskRun env c rom fullscan db
    let rr := runTasks env fullscan rest r.2
    (r.1 :: rr.1, rr.2)

/-- The summary counters a finished run exposes through its getters. -/
structure ScanSummary where
  added : Nat
  updated : Nat
  skipped : Nat
  failed : Nat
  deleted : Nat
deriving Repr, DecidableEq

/-- `RomScanThread.run` on a prepared task list (the consoles and kept ROM
files of the enumeration loop), for a run that is not interrupted: mark
every persisted game unfound (line 710), execute the tasks, sum the
per-state counts, then reconcile. -/
def scanRun (env : Env) (fullscan : Bool) (tasks : List (Console × String)) (db : DB) :
    ScanSummary × List RomTaskResult × DB :=
  let db0 : DB := { db with games := db.games.map (fun g => { g with found := false }) }
  let rr := runTasks env fullscan tasks db0
  let results := rr.1
  let db1 := rr.2
  let rec2 := reconcile false db1.games
  (⟨(results.filter (fun r => r.state == .added)).length,
    (results.filter (fun r => r.state == .updated)).length,
    (results.filter (fun r => r.state == .skipped)).length,
    (results.filter (fun r => r.state == .failed)).length,
    rec2.2⟩,
   results,
   { db1 with games := rec2.1 })

/-! ### Verification-side notions for the idempotence argument -/

/-- The paths column of the game table. -/
def gamePaths (games : List Game) : List String := games.map (fun g => g.path)

/-- The rows marked found. -/
def foundGames (games : List Game) : List Game := games.filter (fun g => g.found)

/-- The ROM paths of a task list. -/
def taskRoms (tasks : List (Console × String)) : List String := tasks.map (fun t => t.2)

/-- Invariant of the game table while a run's tasks execute, `doneP` being
the ROM paths processed so far: found rows have pairwise distinct paths,
every found row's path was processed, every processed path has a found row,
and every found row is the first row carrying its path. -/
def FoundInv (games : List Game) (doneP : List String) : Prop :=
  (gamePaths (foundGames games)).Nodup ∧
  (∀ g ∈ games, g.found = true → g.path ∈ doneP) ∧
  (∀ rom ∈ doneP, ∃ g ∈ games, g.path = rom ∧ g.found = true) ∧
  (∀ g ∈ games, g.found = true → games.find? (fun x => x.path == g.path) = some g)

/-! ### Concrete inputs for evaluations and witnesses -/

/-- An environment for concrete evaluations: every download succeeds, no
file pre-exists. -/
def evalEnv : Env :=
  { resourcesDir := "/res", userCoverartDir := "/cov", userScreenshotDir := "/shot",
    rasum := fun _ _ => "HASH", httpOk := fun _ => true, fileExists := fun _ => false,
    fileSize := fun _ => 42 }

/-- An environment in which every download fails (HTTP 404 everywhere). -/
def evalEnv404 : Env := { evalEnv with httpOk := fun _ => false }

/-- A console without an achievement-catalog id. -/
def evalConsole : Console := { id := 1, name := "SNES", retroId := none, nocoverart := "snes.png" }

/-- A catalog entry with one front cover-art URL and five screenshots. -/
def c5Gdb : GamesDbGame :=
  { id := 5, retroId := none, name := "Chrono Trigger",
    boxArtBackOriginal := none, boxArtBackMedium := none, boxArtBackLarge := none,
    boxArtFrontOriginal := none, boxArtFrontMedium := none,
    boxArtFrontLarge := some "http://a/l.jpg",
    screenshots := [⟨some "http://a/s1.png", none, none⟩, ⟨some "http://a/s2.png", none, none⟩,
                    ⟨some "http://a/s3.png", none, none⟩, ⟨some "http://a/s4.png", none, none⟩,
                    ⟨some "http://a/s5.png", none, none⟩] }

/-- A database holding only the five-screenshot catalog entry. -/
def c5Db : DB := { games := [], retroGames := [], gamesDbGames := [c5Gdb] }

/-- A catalog entry with all three front cover-art variants. -/
def c9Gdb : GamesDbGame :=
  { id := 9, retroId := none, name := "Chrono Trigger",
    boxArtBackOriginal := none, boxArtBackMedium := none, boxArtBackLarge := none,
    boxArtFrontOriginal := some "http://a/o.gif", boxArtFrontMedium := some "http://a/m.png",
    boxArtFrontLarge := some "http://a/l.jpg",
    screenshots := [] }

/-- A game row whose file disappeared (`found` still false). -/
def c1Game : Game :=
  { consoleId := 1, name := "Zelda", rasum := none, gamesDbId := some 0, retroId := some 0,
    path := "/roms/SNES/Zelda.sfc", coverartFront := none, coverartBack := none,
    fileSize := 7, found := false, screenshots := [] }

/-! ## Theorems -/

/-! ### Helper lemmas on `updateFirst` -/

theorem updateFirst_of_find?_none {α : Type} {p : α → Bool} {f : α → α} {l : List α}
    (h : l.find? p = none) : updateFirst p f l = l := by
  induction l with
  | nil => rfl
  | cons x xs ih =>
    rw [List.find?_cons] at h
    cases hx : p x with
    | true => simp [hx] at h
    | false =>
      simp only [hx] at h
      simp [updateFirst, hx, ih h]

theorem updateFirst_append_of_find?_none {α : Type} {p : α → Bool} {f : α → α}
    {l₁ l₂ : List α} (h : l₁.find? p = none) :
    updateFirst p f (l₁ ++ l₂) = l₁ ++ updateFirst p f l₂ := by
  induction l₁ with
  | nil => rfl
  | cons x xs ih =>
    rw [List.find?_cons] at h
    cases hx : p x with
    | true => simp [hx] at h
    | false =>
      simp only [hx] at h
      simp [updateFirst, hx, ih h]

theorem map_updateFirst {α β : Type} (p : α → Bool) (f : α → α) (g : α → β)
    (hf : ∀ x, g (f x) = g x) (l : List α) :
    (updateFirst p f l).map g = l.map g := by
  induction l with
  | nil => rfl
  | cons x xs ih =>
    by_cases hx : p x = true
    · simp [updateFirst, hx, hf]
    · simp only [Bool.not_eq_true] at hx
      simp [updateFirst, hx, ih]

theorem mem_updateFirst_of_find? {α : Type} {p : α → Bool} {f : α → α} {l : List α}
    {x : α} (h : l.find? p = some x) : f x ∈ updateFirst p f l := by
  induction l with
  | nil => simp at h
  | cons y ys ih =>
    rw [List.find?_cons] at h
    cases hy : p y with
    | true =>
      simp only [hy, Option.some.injEq] at h
      subst h
      simp [updateFirst, hy]
    | false =>
      simp only [hy] at h
      simp [updateFirst, hy, ih h]

/-! ### Task-level lemmas -/

/-- Step 1 in isolation: when a row with the ROM's path exists and
`fullscan` is off, the task returns Skipped with that row's name and
cover art, and the only database change is the row's found flag. -/
theorem taskRun_rediscover {env : Env} {console : Console} {rom : String} {db : DB}
    {g0 : Game} (h : db.games.find? (fun g => g.path == rom) = some g0) :
    gamesDbRomTaskRun env console rom false db =
      (⟨.skipped, g0.name, g0.coverartFront⟩,
       { db with games := updateFirst (fun g => g.path == rom) setFound db.games }) := by
  unfold gamesDbRomTaskRun
  rw [h]
  rfl

/-- For a new game the front cover-art loop never flags `STATE_UPDATED`. -/
theorem frontArtLoop_newGame_not_updated (env : Env) (console : Console) (romName : String)
    (fullscan : Bool) :
    ∀ (urls : List String) (lp : String),
      (frontArtLoop env console romName fullscan true urls lp).stateUpdated = false := by
  intro urls
  induction urls with
  | nil => intro lp; rfl
  | cons u rest ih =>
    intro lp
    unfold frontArtLoop
    split
    · dsimp only
      split <;> rfl
    · dsimp only
      split
      · exact ih _
      · rfl

/-- Enrichment never changes the row's path, found flag or name. -/
theorem enrich_game_fields (env : Env) (console : Console) (romName : String)
    (fullscan newGame : Bool) (gdb : Option GamesDbGame) (game : Game) :
    (enrich env console romName fullscan newGame gdb game).game.path = game.path ∧
    (enrich env console romName fullscan newGame gdb game).game.found = game.found ∧
    (enrich env console romName fullscan newGame gdb game).game.name = game.name := by
  unfold enrich
  cases gdb with
  | none => exact ⟨rfl, rfl, rfl⟩
  | some g =>
    simp only
    split
    · split <;> split <;> split <;> simp
    · exact ⟨rfl, rfl, rfl⟩

/-- For a new game enrichment never flags `STATE_UPDATED`. -/
theorem enrich_newGame_not_updated (env : Env) (console : Console) (romName : String)
    (fullscan : Bool) (gdb : Option GamesDbGame) (game : Game) :
    (enrich env console romName fullscan true gdb game).stateUpdated = false := by
  unfold enrich
  cases gdb with
  | none => rfl
  | some g =>
    simp only
    split
    · simp [frontArtLoop_newGame_not_updated]
    · rfl

/-- The row built for a ROM not in the database carries the ROM's path and
a set found flag, whichever match branch produced it. -/
theorem newGameRowByName_path_found (env : Env) (console : Console) (rom : String) (db : DB)
    (retroGame : Option RetroAchievementGame) :
    (newGameRowByName env console rom db retroGame).path = rom ∧
    (newGameRowByName env console rom db retroGame).found = true := by
  unfold newGameRowByName
  cases h2 : db.gamesDbGames.find? (fun g => normName g.name == normName (romNameOf rom)) <;>
    exact ⟨rfl, rfl⟩

theorem newGameRow_path_found (env : Env) (console : Console) (rom : String) (db : DB) :
    (newGameRow env console rom db).path = rom ∧
    (newGameRow env console rom db).found = true := by
  unfold newGameRow
  cases h1 : taskRetroGame env console rom db with
  | none => exact newGameRowByName_path_found env console rom db none
  | some rg =>
    dsimp only
    cases h3 : (gamesDbGamesOfRetro db rg).head? with
    | none => exact newGameRowByName_path_found env console rom db (some rg)
    | some gdb => exact ⟨rfl, rfl⟩

/-- Steps 2-4 in isolation: when no row with the ROM's path exists the task
returns Added and appends exactly one row carrying the ROM's path and a set
found flag. -/
theorem taskRun_new {env : Env} {console : Console} {rom : String} {db : DB} (fullscan : Bool)
    (h : db.games.find? (fun g => g.path == rom) = none) :
    ∃ g' : Game, g'.path = rom ∧ g'.found = true ∧
      (gamesDbRomTaskRun env console rom fullscan db).1.state = .added ∧
      (gamesDbRomTaskRun env console rom fullscan db).2.games = db.games ++ [g'] := by
  obtain ⟨hpath, hfound⟩ := newGameRow_path_found env console rom db
  have hef := enrich_game_fields env console (romNameOf rom) fullscan true
    (lookupGamesDb { db with games := db.games ++ [newGameRow env console rom db] }
      (newGameRow env console rom db).gamesDbId)
    (newGameRow env console rom db)
  have hnu := enrich_newGame_not_updated env console (romNameOf rom) fullscan
    (lookupGamesDb { db with games := db.games ++ [newGameRow env console rom db] }
      (newGameRow env console rom db).gamesDbId)
    (newGameRow env console rom db)
  refine ⟨(enrich env console (romNameOf rom) fullscan true
      (lookupGamesDb { db with games := db.games ++ [newGameRow env console rom db] }
        (newGameRow env console rom db).gamesDbId)
      (newGameRow env console rom db)).game, ?_, ?_, ?_, ?_⟩
  · exact hef.1.trans hpath
  · exact hef.2.1.trans hfound
  · unfold gamesDbRomTaskRun
    rw [h]
    dsimp only
    rw [hnu]
    rfl
  · unfold gamesDbRomTaskRun
    rw [h]
    dsimp only
    rw [updateFirst_append_of_find?_none h]
    simp [updateFirst, hpath]

/-! ### Claim C2 -/

/-- Claim C2: executing a task for a ROM whose path already exists as a
Game row, without fullscan, returns Skipped, sets that row's found flag to
true, creates no new Game row, and leaves the list of paths unchanged —
so path uniqueness is preserved. -/
theorem c2_rescan_skipped_preserves_uniqueness (env : Env) (console : Console) (rom : String)
    (db : DB) (g0 : Game) (h : db.games.find? (fun g => g.path == rom) = some g0) :
    (gamesDbRomTaskRun env console rom false db).1.state = .skipped ∧
    { g0 with found := true } ∈ (gamesDbRomTaskRun env console rom false db).2.games ∧
    (gamesDbRomTaskRun env console rom false db).2.games.map (fun g => g.path) =
      db.games.map (fun g => g.path) ∧
    ((db.games.map (fun g => g.path)).Nodup →
      ((gamesDbRomTaskRun env console rom false db).2.games.map (fun g => g.path)).Nodup) := by
  rw [taskRun_rediscover h]
  refine ⟨rfl, ?_, ?_, ?_⟩
  · exact mem_updateFirst_of_find? h
  · exact map_updateFirst _ setFound (fun g => g.path) (fun x => rfl) db.games
  · intro hnd
    rw [map_updateFirst _ setFound (fun g => g.path) (fun x => rfl) db.games]
    exact hnd

theorem c2_rescan_skipped_preserves_uniqueness_witness :
    ((⟨[c1Game], [], []⟩ : DB).games.find?
        (fun g => g.path == "/roms/SNES/Zelda.sfc") = some c1Game) ∧
    (gamesDbRomTaskRun evalEnv evalConsole "/roms/SNES/Zelda.sfc" false
        ⟨[c1Game], [], []⟩).1.state = .skipped :=
  ⟨by decide,
   (c2_rescan_skipped_preserves_uniqueness evalEnv evalConsole "/roms/SNES/Zelda.sfc"
      ⟨[c1Game], [], []⟩ c1Game (by decide)).1⟩

/-! ### Claim C7 -/

/-- Claim C7: for a ROM file matching no existing row (by path), no
checksum entry (the achievement-catalog query finds nothing for any hash)
and no name entry, the task appends exactly one Game row whose name is the
ROM filename without its extension and whose front cover-art path is the
console's default no-art path, and returns Added.  (The last hypothesis
rules out a catalog row with id 0, the column-default foreign key of a
bare row.) -/
theorem c7_no_match_bare_row (env : Env) (console : Console) (rom : String) (db : DB)
    (h1 : db.games.find? (fun g => g.path == rom) = none)
    (h2 : ∀ rs : String, db.retroGames.find? (fun rg =>
        rg.retroConsoleId == console.retroId.getD 0 && rg.rasums.contains rs) = none)
    (h3 : db.gamesDbGames.find? (fun g => normName g.name == normName (romNameOf rom)) = none)
    (h4 : db.gamesDbGames.find? (fun g => g.id == 0) = none) :
    (gamesDbRomTaskRun env console rom false db).1.state = .added ∧
    (gamesDbRomTaskRun env console rom false db).2.games =
      db.games ++ [newGameRow env console rom db] ∧
    (newGameRow env console rom db).name = romNameOf rom ∧
    (newGameRow env console rom db).coverartFront = some (nocoverartPath env console) := by
  have hretro : taskRetroGame env console rom db = none := by
    unfold taskRetroGame
    cases hr : taskRasum env console rom with
    | none => rfl
    | some rs => exact h2 rs
  have hrow : newGameRow env console rom db = newGameRowByName env console rom db none := by
    unfold newGameRow
    rw [hretro]
  have hbare : newGameRowByName env console rom db none =
      { consoleId := console.id, name := romNameOf rom, rasum := taskRasum env console rom,
        gamesDbId := some 0, retroId := some 0, path := rom,
        fileSize := env.fileSize rom,
        coverartFront := some (nocoverartPath env console),
        coverartBack := none, found := true, screenshots := [] } := by
    unfold newGameRowByName
    rw [h3]
  have hgd : lookupGamesDb { db with games := db.games ++ [newGameRow env console rom db] }
      (newGameRow env console rom db).gamesDbId = none := by
    rw [hrow, hbare]
    exact h4
  have hpath : (newGameRow env console rom db).path = rom := (newGameRow_path_found env console rom db).1
  refine ⟨?_, ?_, ?_, ?_⟩
  · unfold gamesDbRomTaskRun
    rw [h1]
    dsimp only
    rw [hgd]
    rfl
  · unfold gamesDbRomTaskRun
    rw [h1]
    dsimp only
    rw [hgd]
    unfold enrich
    rw [updateFirst_append_of_find?_none h1]
    simp [updateFirst, hpath]
  · rw [hrow, hbare]
  · rw [hrow, hbare]

theorem c7_no_match_bare_row_witness :
    (gamesDbRomTaskRun evalEnv evalConsole "/roms/SNES/Zelda.sfc" false ⟨[], [], []⟩).1.state =
      .added ∧
    (newGameRow evalEnv evalConsole "/roms/SNES/Zelda.sfc" ⟨[], [], []⟩).name =
      romNameOf "/roms/SNES/Zelda.sfc" ∧
    (newGameRow evalEnv evalConsole "/roms/SNES/Zelda.sfc" ⟨[], [], []⟩).coverartFront =
      some (nocoverartPath evalEnv evalConsole) := by
  have h := c7_no_match_bare_row evalEnv evalConsole "/roms/SNES/Zelda.sfc" ⟨[], [], []⟩
    rfl (fun rs => rfl) rfl rfl
  exact ⟨h.1, h.2.2.1, h.2.2.2⟩

/-! ### Claim C9 -/

/-- With no cached art file, the front-art loop succeeds exactly on the
first URL accepted by HTTP, and the resulting path is built from that URL. -/
theorem frontArtLoop_first_ok (env : Env) (console : Console) (romName : String)
    (newGame : Bool) (hfe : ∀ p, env.fileExists p = false) :
    ∀ (urls : List String) (lp u : String), urls.find? env.httpOk = some u →
      (frontArtLoop env console romName false newGame urls lp).imgSaved = true ∧
      (frontArtLoop env console romName false newGame urls lp).path =
        pathJoin (pathJoin env.userCoverartDir console.name)
          (romName ++ "-front" ++ urlExtension u) := by
  intro urls
  induction urls with
  | nil => intro lp u h; simp at h
  | cons u0 rest ih =>
    intro lp u h
    rw [List.find?_cons] at h
    unfold frontArtLoop
    cases hok : env.httpOk u0 with
    | true =>
      rw [hok] at h
      simp only [Option.some.injEq] at h
      subst h
      simp [hfe, hok]
    | false =>
      rw [hok] at h
      simp only [hfe, hok, Bool.false_or, Bool.not_false, if_true, Bool.false_eq_true, if_false]
      exact ih _ u h

/-- With no cached art file and every URL refused, the front-art loop
reports no saved image. -/
theorem frontArtLoop_all_fail (env : Env) (console : Console) (romName : String)
    (newGame : Bool) (hfe : ∀ p, env.fileExists p = false) :
    ∀ (urls : List String) (lp : String), (∀ u ∈ urls, env.httpOk u = false) →
      (frontArtLoop env console romName false newGame urls lp).imgSaved = false := by
  intro urls
  induction urls with
  | nil => intro lp _; rfl
  | cons u0 rest ih =>
    intro lp h
    have h0 : env.httpOk u0 = false := h u0 (List.mem_cons_self u0 rest)
    unfold frontArtLoop
    simp only [hfe, h0, Bool.false_or, Bool.not_false, if_true, Bool.false_eq_true, if_false]
    exact ih _ (fun u hu => h u (List.mem_cons_of_mem u0 hu))

/-- For a new game with a catalog entry carrying front-art URLs, the
enriched row's front cover-art is the loop's saved path, or the console's
default art when nothing was saved. -/
theorem enrich_newGame_front (env : Env) (console : Console) (romName : String)
    (g : GamesDbGame) (game : Game) (h : 0 < (frontArtUrls g).length) :
    (enrich env console romName false true (some g) game).game.coverartFront =
      some (if (frontArtLoop env console romName false true (frontArtUrls g) "").imgSaved = true
            then (frontArtLoop env console romName false true (frontArtUrls g) "").path
            else nocoverartPath env console) := by
  unfold enrich
  dsimp only
  rw [if_pos h]
  dsimp only
  split <;> split <;> rfl

/-- Claim C9: for a new game name-matched to a catalog entry whose three
front-art variants are all present, the download candidates are exactly
[large, medium, original] in that order; the task returns Added, appends
one row, and that row's front cover-art is built from the first URL
returning HTTP 200 (`List.find?` on the candidate list), falling back to
the console's default art path when every variant fails. -/
theorem c9_front_art_priority_and_fallback (env : Env) (console : Console) (rom : String)
    (db : DB) (gdb : GamesDbGame) (l m o : String)
    (h1 : db.games.find? (fun g => g.path == rom) = none)
    (h2 : ∀ rs : String, db.retroGames.find? (fun rg =>
        rg.retroConsoleId == console.retroId.getD 0 && rg.rasums.contains rs) = none)
    (h3 : db.gamesDbGames.find? (fun g => normName g.name == normName (romNameOf rom)) = some gdb)
    (h4 : db.gamesDbGames.find? (fun g => g.id == gdb.id) = some gdb)
    (hl : gdb.boxArtFrontLarge = some l) (hm : gdb.boxArtFrontMedium = some m)
    (ho : gdb.boxArtFrontOriginal = some o)
    (hlne : l ≠ "") (hmne : m ≠ "") (hone : o ≠ "")
    (hfe : ∀ p, env.fileExists p = false) :
    frontArtUrls gdb = [l, m, o] ∧
    (gamesDbRomTaskRun env console rom false db).1.state = .added ∧
    (gamesDbRomTaskRun env console rom false db).2.games =
      db.games ++ [(enrich env console (romNameOf rom) false true (some gdb)
        (newGameRow env console rom db)).game] ∧
    (∀ u, (frontArtUrls gdb).find? env.httpOk = some u →
      (enrich env console (romNameOf rom) false true (some gdb)
        (newGameRow env console rom db)).game.coverartFront =
        some (pathJoin (pathJoin env.userCoverartDir console.name)
          (romNameOf rom ++ "-front" ++ urlExtension u))) ∧
    ((∀ u ∈ frontArtUrls gdb, env.httpOk u = false) →
      (enrich env console (romNameOf rom) false true (some gdb)
        (newGameRow env console rom db)).game.coverartFront =
        some (nocoverartPath env console)) := by
  have hurls : frontArtUrls gdb = [l, m, o] := by
    unfold frontArtUrls
    rw [hl, hm, ho]
    simp [truthyStr, hlne, hmne, hone]
  have hretro : taskRetroGame env console rom db = none := by
    unfold taskRetroGame
    cases hr : taskRasum env console rom with
    | none => rfl
    | some rs => exact h2 rs
  have hrow : newGameRow env console rom db = newGameRowByName env console rom db none := by
    unfold newGameRow
    rw [hretro]
  have hgid : (newGameRow env console rom db).gamesDbId = some gdb.id := by
    rw [hrow]
    unfold newGameRowByName
    rw [h3]
  have hlk : lookupGamesDb { db with games := db.games ++ [newGameRow env console rom db] }
      (newGameRow env console rom db).gamesDbId = some gdb := by
    rw [hgid]
    exact h4
  have hpath : (newGameRow env console rom db).path = rom :=
    (newGameRow_path_found env console rom db).1
  have hnu := enrich_newGame_not_updated env console (romNameOf rom) false (some gdb)
    (newGameRow env console rom db)
  have hlen : 0 < (frontArtUrls gdb).length := by rw [hurls]; simp
  have hfront := enrich_newGame_front env console (romNameOf rom) gdb
    (newGameRow env console rom db) hlen
  refine ⟨hurls, ?_, ?_, ?_, ?_⟩
  · unfold gamesDbRomTaskRun
    rw [h1]
    dsimp only
    rw [hlk, hnu]
    rfl
  · unfold gamesDbRomTaskRun
    rw [h1]
    dsimp only
    rw [hlk]
    rw [updateFirst_append_of_find?_none h1]
    simp [updateFirst, hpath]
  · intro u hu
    obtain ⟨hi, hp⟩ := frontArtLoop_first_ok env console (romNameOf rom) true hfe
      (frontArtUrls gdb) "" u hu
    rw [hfront, hi, if_pos rfl, hp]
  · intro hall
    have hi := frontArtLoop_all_fail env console (romNameOf rom) true hfe
      (frontArtUrls gdb) "" hall
    rw [hfront, hi]
    rfl

theorem c9_front_art_priority_and_fallback_witness :
    frontArtUrls c9Gdb = ["http://a/l.jpg", "http://a/m.png", "http://a/o.gif"] ∧
    (gamesDbRomTaskRun evalEnv404 evalConsole "/roms/SNES/Chrono Trigger.sfc" false
        ⟨[], [], [c9Gdb]⟩).1.state = .added ∧
    (enrich evalEnv404 evalConsole (romNameOf "/roms/SNES/Chrono Trigger.sfc") false true
        (some c9Gdb)
        (newGameRow evalEnv404 evalConsole "/roms/SNES/Chrono Trigger.sfc"
          ⟨[], [], [c9Gdb]⟩)).game.coverartFront =
      some (nocoverartPath evalEnv404 evalConsole) := by
  have h := c9_front_art_priority_and_fallback evalEnv404 evalConsole
    "/roms/SNES/Chrono Trigger.sfc" ⟨[], [], [c9Gdb]⟩ c9Gdb
    "http://a/l.jpg" "http://a/m.png" "http://a/o.gif"
    rfl (fun rs => rfl) (by decide) (by decide) rfl rfl rfl
    (by decide) (by decide) (by decide) (fun p => rfl)
  exact ⟨h.1, h.2.1, h.2.2.2.2 (fun u hu => rfl)⟩

/-! ### Claim C6 -/

theorem getProgress_of_done {s : ScanThreadState} (h : s.done = true) : getProgress s = 1 := by
  unfold getProgress isRunning
  rw [h]
  simp

theorem getProgress_zero {s : ScanThreadState} (hd : s.done = false)
    (h : s.started = false ∨ s.tasksSet = false ∨ s.romTotal = 0 ∨ s.processStarted = false) :
    getProgress s = 0 := by
  unfold getProgress isRunning
  rw [hd]
  rcases h with h | h | h | h <;> simp [h]

theorem getProgress_run_pills {s : ScanThreadState} (h1 : s.started = true)
    (h2 : s.done = false) (h3 : s.tasksSet = true) (h4 : s.romTotal ≠ 0)
    (h5 : s.processStarted = true) (h6 : s.qsize ≤ s.romProcessTotal) :
    getProgress s = 1 := by
  unfold getProgress isRunning
  rw [h1, h2, h3, h5]
  by_cases hq : s.qsize = 0 <;> simp [hq, h4, h6]

theorem getProgress_run_formula {s : ScanThreadState} (h1 : s.started = true)
    (h2 : s.done = false) (h3 : s.tasksSet = true) (h4 : s.romTotal ≠ 0)
    (h5 : s.processStarted = true) (h6 : s.romProcessTotal < s.qsize) :
    getProgress s =
      ((s.romTotal : ℚ) - ((s.qsize : ℚ) - (s.romProcessTotal : ℚ))) / (s.romTotal : ℚ) := by
  unfold getProgress isRunning
  rw [h1, h2, h3, h5]
  have hq : s.qsize ≠ 0 := by omega
  simp [hq, h4, Nat.not_le.mpr h6]

theorem formula_nonneg {T q P : Nat} (hq : q ≤ T + P) :
    0 ≤ ((T : ℚ) - ((q : ℚ) - (P : ℚ))) / (T : ℚ) := by
  apply div_nonneg
  · have hc : (q : ℚ) ≤ (T : ℚ) + (P : ℚ) := by exact_mod_cast hq
    linarith
  · exact Nat.cast_nonneg T

theorem formula_le_one {T q P : Nat} (hT : T ≠ 0) (hPq : P < q) :
    ((T : ℚ) - ((q : ℚ) - (P : ℚ))) / (T : ℚ) ≤ 1 := by
  have hTp : 0 < (T : ℚ) := by exact_mod_cast Nat.pos_of_ne_zero hT
  rw [div_le_one hTp]
  have hc : (P : ℚ) < (q : ℚ) := by exact_mod_cast hPq
  linarith

theorem formula_mono_dec {T q P : Nat} (hT : T ≠ 0) (h1 : 0 < q) :
    ((T : ℚ) - ((q : ℚ) - (P : ℚ))) / (T : ℚ) ≤
    ((T : ℚ) - (((q - 1 : Nat) : ℚ) - (P : ℚ))) / (T : ℚ) := by
  have hTp : 0 < (T : ℚ) := by exact_mod_cast Nat.pos_of_ne_zero hT
  rw [div_le_div_iff_of_pos_right hTp, Nat.cast_sub h1]
  push_cast
  linarith

theorem getProgress_le_one (s : ScanThreadState) : getProgress s ≤ 1 := by
  unfold getProgress
  split
  · exact le_refl 1
  · split
    · exact zero_le_one
    · split
      · exact le_refl 1
      · split
        · exact le_refl 1
        · rename_i hc1 hc2 hc3 hc4
          simp at hc2
          exact formula_le_one hc2.1.2 (Nat.lt_of_not_le hc4)

theorem getProgress_nonneg (s : ScanThreadState) (hs : QueueInv s) : 0 ≤ getProgress s := by
  unfold getProgress
  split
  · exact zero_le_one
  · split
    · exact le_refl 0
    · split
      · exact zero_le_one
      · split
        · exact zero_le_one
        · rename_i hc1 hc2 hc3 hc4
          simp at hc2
          exact formula_nonneg (hs hc2.2)

theorem scanStep_queueInv {s t : ScanThreadState} (hst : ScanStep s t) (hs : QueueInv s) :
    QueueInv t := by
  cases hst with
  | beginRun h1 h2 h3 h4 => intro hp; exact absurd hp (by simp [h3])
  | createQueue h1 h2 h3 => intro hp; exact absurd hp (by simp [h3])
  | enqueueTask h1 h2 h3 => intro hp; exact absurd hp (by simp [h3])
  | addConsoleTotal n h1 h2 h3 => intro hp; exact absurd hp (by simp [h3])
  | noRomsDone h1 h2 h3 h4 => exact hs
  | emitUpdate h1 h2 h3 => exact hs
  | startProcesses h1 h2 h3 => intro hp; exact h3
  | consumeTask h1 h2 =>
    intro hp
    have hq := hs h1
    show s.qsize - 1 ≤ s.romTotal + s.romProcessTotal
    omega
  | finishRun h1 h2 => exact hs
  | stopCall =>
    unfold stop
    split
    · exact hs
    · exact hs

theorem getProgress_mono {s t : ScanThreadState} (hst : ScanStep s t) (hs : QueueInv s) :
    getProgress s ≤ getProgress t := by
  cases hst with
  | beginRun h1 h2 h3 h4 =>
    rw [getProgress_zero h2 (Or.inr (Or.inr (Or.inr h3)))]
    exact getProgress_nonneg _ (fun hp => absurd hp (by simp [h3]))
  | createQueue h1 h2 h3 =>
    rw [getProgress_zero h2 (Or.inr (Or.inr (Or.inr h3)))]
    exact getProgress_nonneg _ (fun hp => absurd hp (by simp [h3]))
  | enqueueTask h1 h2 h3 =>
    rw [getProgress_zero h2 (Or.inr (Or.inr (Or.inr h3)))]
    exact getProgress_nonneg _ (fun hp => absurd hp (by simp [h3]))
  | addConsoleTotal n h1 h2 h3 =>
    rw [getProgress_zero h2 (Or.inr (Or.inr (Or.inr h3)))]
    exact getProgress_nonneg _ (fun hp => absurd hp (by simp [h3]))
  | noRomsDone h1 h2 h3 h4 =>
    rw [getProgress_zero h2 (Or.inr (Or.inr (Or.inr h3))),
        getProgress_of_done (s := { s with done := true, emitted := s.emitted ++ ["done"] }) rfl]
    exact zero_le_one
  | emitUpdate h1 h2 h3 =>
    exact le_refl _
  | startProcesses h1 h2 h3 =>
    by_cases hp : s.processStarted = true
    · have ht : ({ s with processStarted := true } : ScanThreadState) = s := by
        cases s
        simp_all
      rw [ht]
    · have hp2 : s.processStarted = false := by simpa using hp
      rw [getProgress_zero h2 (Or.inr (Or.inr (Or.inr hp2)))]
      exact getProgress_nonneg _ (fun _ => h3)
  | consumeTask h1 h2 =>
    by_cases hd : s.done = true
    · rw [getProgress_of_done hd, getProgress_of_done (s := { s with qsize := s.qsize - 1 }) hd]
    · have hd2 : s.done = false := by simpa using hd
      by_cases hst2 : s.started = true
      · by_cases hts : s.tasksSet = true
        · by_cases hr : s.romTotal = 0
          · rw [getProgress_zero hd2 (Or.inr (Or.inr (Or.inl hr))),
                getProgress_zero (s := { s with qsize := s.qsize - 1 }) hd2 (Or.inr (Or.inr (Or.inl hr)))]
          · by_cases hq : s.qsize ≤ s.romProcessTotal
            · rw [getProgress_run_pills hst2 hd2 hts hr h1 hq,
                  getProgress_run_pills (s := { s with qsize := s.qsize - 1 }) hst2 hd2 hts hr h1 (show s.qsize - 1 ≤ s.romProcessTotal by omega)]
            · have hq2 : s.romProcessTotal < s.qsize := Nat.lt_of_not_le hq
              rw [getProgress_run_formula hst2 hd2 hts hr h1 hq2]
              by_cases hq3 : s.qsize - 1 ≤ s.romProcessTotal
              · rw [getProgress_run_pills (s := { s with qsize := s.qsize - 1 }) hst2 hd2 hts hr h1 hq3]
                exact formula_le_one hr hq2
              · rw [getProgress_run_formula (s := { s with qsize := s.qsize - 1 }) hst2 hd2 hts hr h1 (show s.romProcessTotal < s.qsize - 1 by omega)]
                exact formula_mono_dec hr h2
        · have hts2 : s.tasksSet = false := by simpa using hts
          rw [getProgress_zero hd2 (Or.inr (Or.inl hts2)),
              getProgress_zero (s := { s with qsize := s.qsize - 1 }) hd2 (Or.inr (Or.inl hts2))]
      · have hst3 : s.started = false := by simpa using hst2
        rw [getProgress_zero hd2 (Or.inl hst3),
            getProgress_zero (s := { s with qsize := s.qsize - 1 }) hd2 (Or.inl hst3)]
  | finishRun h1 h2 =>
    rw [getProgress_of_done (s := { s with done := true, emitted := s.emitted ++ ["done"] }) rfl]
    exact getProgress_le_one s
  | stopCall =>
    unfold stop
    split
    · exact le_refl _
    · rw [getProgress_of_done (s := { s with done := true, emitted := s.emitted ++ ["stopped"] }) rfl]
      exact getProgress_le_one s

/-- Claim C6: across a scan run (any step of the run's transition relation,
including stop() calls), the progress value never decreases and lies in
[0,1]; it is 0 before the worker processes have started, 1 once the run is
done, 1 while only poison pills remain in the queue, and
(total − (qsize − poison pills)) / total while real tasks are queued. -/
theorem c6_progress_monotone_and_bounded (s t : ScanThreadState) (hs : QueueInv s)
    (hst : ScanStep s t) :
    getProgress s ≤ getProgress t ∧ QueueInv t ∧
    0 ≤ getProgress s ∧ getProgress s ≤ 1 ∧
    (s.processStarted = false ∧ s.done = false → getProgress s = 0) ∧
    (s.done = true → getProgress s = 1) ∧
    (s.started = true ∧ s.done = false ∧ s.tasksSet = true ∧ s.romTotal ≠ 0 ∧
      s.processStarted = true ∧ s.qsize ≤ s.romProcessTotal → getProgress s = 1) ∧
    (s.started = true ∧ s.done = false ∧ s.tasksSet = true ∧ s.romTotal ≠ 0 ∧
      s.processStarted = true ∧ s.romProcessTotal < s.qsize →
      getProgress s = ((s.romTotal : ℚ) - ((s.qsize : ℚ) - (s.romProcessTotal : ℚ))) /
        (s.romTotal : ℚ)) := by
  refine ⟨getProgress_mono hst hs, scanStep_queueInv hst hs, getProgress_nonneg s hs,
    getProgress_le_one s, ?_, ?_, ?_, ?_⟩
  · intro ⟨hp, hd⟩
    exact getProgress_zero hd (Or.inr (Or.inr (Or.inr hp)))
  · exact getProgress_of_done
  · intro ⟨ha, hb, hc, hd, he, hf⟩
    exact getProgress_run_pills ha hb hc hd he hf
  · intro ⟨ha, hb, hc, hd, he, hf⟩
    exact getProgress_run_formula ha hb hc hd he hf

theorem c6_progress_monotone_and_bounded_witness :
    getProgress ⟨true, false, false, true, true, false, 3, 4, 2, []⟩ ≤
      getProgress ⟨true, false, false, true, true, false, 3, 3, 2, []⟩ :=
  (c6_progress_monotone_and_bounded ⟨true, false, false, true, true, false, 3, 4, 2, []⟩
    ⟨true, false, false, true, true, false, 3, 3, 2, []⟩ (by intro h; decide)
    (ScanStep.consumeTask ⟨true, false, false, true, true, false, 3, 4, 2, []⟩ rfl
      (by decide))).1

/-! ### Claim C10 -/

/-- Claim C10: calling the scan thread's `stop()` when no run is active
(idle, or a run has reached done) leaves the interrupted flag unchanged,
marks the thread done so that `isRunning()` is false afterwards, and still
emits a "stopped" state-change signal. -/
theorem c10_stop_without_active_run (s : ScanThreadState) (h : isRunning s = false) :
    (stop s).interrupted = s.interrupted ∧ (stop s).done = true ∧
    isRunning (stop s) = false ∧ (stop s).emitted = s.emitted ++ ["stopped"] := by
  unfold isRunning at h
  simp [stop, isRunning, h]

theorem c10_stop_without_active_run_witness :
    (stop ⟨false, false, false, false, false, false, 0, 0, 0, []⟩).interrupted =
      (⟨false, false, false, false, false, false, 0, 0, 0, []⟩ : ScanThreadState).interrupted ∧
    (stop ⟨false, false, false, false, false, false, 0, 0, 0, []⟩).done = true ∧
    isRunning (stop ⟨false, false, false, false, false, false, 0, 0, 0, []⟩) = false ∧
    (stop ⟨false, false, false, false, false, false, 0, 0, 0, []⟩).emitted =
      (⟨false, false, false, false, false, false, 0, 0, 0, []⟩ : ScanThreadState).emitted ++
        ["stopped"] :=
  c10_stop_without_active_run ⟨false, false, false, false, false, false, 0, 0, 0, []⟩ (by decide)

/-! ### Claim C1 -/

/-- Claim C1, the code evaluated at the failing input: on an interrupted
run the reconciliation pass deletes nothing and reports Deleted = 0, but it
also restores nothing — the row whose task never ran keeps `found = false`,
because `filter(not pes.sql.Game.found)` is an always-false criterion.  On
a non-interrupted run the same row is deleted and counted. -/
theorem c1_interrupted_reconcile_does_not_restore :
    reconcile true [c1Game] = ([c1Game], 0) ∧
    (reconcile true [c1Game]).1.map (fun g => g.found) = [false] ∧
    reconcile false [c1Game] = ([], 1) := by
  decide

/-! ### Claim C3 -/

/-- Claim C3, the code evaluated at the failing input: the worker converts
a raising task into an individual Failed queue item and keeps going (the
later Added task is still counted in its aggregate), but the orchestrator's
drain loop reads every queue item as a `RomProcessResult`, so the Failed
item's missing `added` attribute raises AttributeError instead of being
counted. -/
theorem c3_drain_crashes_on_failed_task :
    romProcessRun false [.raised, .ret ⟨.added, "A", none⟩] emptyProcessResult =
      [.taskResult ⟨.failed, "", none⟩, .processResult ⟨1, 0, 0, 0⟩] ∧
    drainResults (romProcessRun false [.raised, .ret ⟨.added, "A", none⟩] emptyProcessResult)
      ⟨0, 0, 0, 0⟩ = .error "AttributeError" :=
  ⟨rfl, rfl⟩

/-! ### Claim C5 -/

/-- Claim C5, the code evaluated at the failing input: with five catalog
screenshots available and every download succeeding, a single task
execution persists FOUR screenshots, numbered 1..4 — the loop breaks only
once `count > 3` — refuting the three-screenshot bound. -/
theorem c5_four_screenshots_saved :
    ((gamesDbRomTaskRun evalEnv evalConsole "/roms/SNES/Chrono Trigger.sfc" false c5Db).2.games.map
        (fun g => g.screenshots)) =
      [["/shot/SNES/Chrono Trigger-1.png", "/shot/SNES/Chrono Trigger-2.png",
        "/shot/SNES/Chrono Trigger-3.png", "/shot/SNES/Chrono Trigger-4.png"]] := by
  decide

/-! ### Claim C8 -/

/-- Claim C8 counterexample: with configured extensions ["sfc"], the file
"game.sFc" matches case-insensitively and is not ignore-listed (the
spec-modelled predicate keeps it), yet the enumeration rejects it: the
suffix is compared only against the extension as configured and its fully
upper-cased variant. -/
theorem c8_mixed_case_suffix_rejected :
    specKeepFile ["sfc"] none "game.sFc" = true ∧ keepFile ["sfc"] none "game.sFc" = false := by
  decide

/-- Claim C8 as amended: the enumeration keeps a file exactly when it is
not on the ignore list and the filename ends with one of the configured
extensions either exactly as configured (whitespace-stripped) or fully
upper-cased. -/
theorem c8_keepFile_characterisation (extensions : List String)
    (ignoreRoms : Option (List String)) (f : String) :
    keepFile extensions ignoreRoms f = true ↔
      ((∀ l, ignoreRoms = some l → l.contains f = false) ∧
       ∃ e ∈ extensions, pyEndsWith f (pyStrip e) = true ∨
         pyEndsWith f (pyUpper (pyStrip e)) = true) := by
  cases ignoreRoms with
  | none => simp [keepFile, extensionOk, List.any_eq_true]
  | some l =>
    simp [keepFile, extensionOk, List.any_eq_true]

/-! ### Claim C4: lemma suite -/

theorem setFound_path (g : Game) : (setFound g).path = g.path := rfl

theorem setFound_found (g : Game) : (setFound g).found = true := rfl

theorem setFound_of_found {g : Game} (h : g.found = true) : setFound g = g := by
  cases g
  simp_all [setFound]

theorem find?_decomp {α : Type} (f : α → α) {p : α → Bool} {l : List α} {x : α}
    (h : l.find? p = some x) :
    ∃ l1 l2, l = l1 ++ x :: l2 ∧ (∀ y ∈ l1, p y = false) ∧
      updateFirst p f l = l1 ++ f x :: l2 := by
  induction l with
  | nil => simp at h
  | cons a as ih =>
    rw [List.find?_cons] at h
    cases hp : p a with
    | true =>
      rw [hp] at h
      simp only [Option.some.injEq] at h
      subst h
      exact ⟨[], as, rfl, by simp, by simp [updateFirst, hp]⟩
    | false =>
      rw [hp] at h
      obtain ⟨l1, l2, hdec, hl1, hupd⟩ := ih h
      refine ⟨a :: l1, l2, by rw [hdec]; rfl, ?_, ?_⟩
      · intro y hy
        rcases List.mem_cons.mp hy with hy | hy
        · rw [hy]; exact hp
        · exact hl1 y hy
      · simp [updateFirst, hp, hupd]

theorem foundInv_init {games : List Game} (h : ∀ g ∈ games, g.found = false) :
    FoundInv games [] := by
  refine ⟨?_, ?_, ?_, ?_⟩
  · have : foundGames games = [] := by
      apply List.filter_eq_nil_iff.mpr
      intro g hg
      simp [h g hg]
    rw [this]
    exact List.nodup_nil
  · intro g hg hf
    rw [h g hg] at hf
    cases hf
  · intro rom hrom
    cases hrom
  · intro g hg hf
    rw [h g hg] at hf
    cases hf

theorem foundInv_congr {games : List Game} {P Q : List String}
    (hpq : ∀ x, x ∈ P ↔ x ∈ Q) (h : FoundInv games P) : FoundInv games Q := by
  obtain ⟨ha, hb, hc, hd⟩ := h
  exact ⟨ha, fun g hg hf => (hpq _).mp (hb g hg hf),
    fun rom hrom => hc rom ((hpq rom).mpr hrom), hd⟩

theorem gamePaths_append (a b : List Game) :
    gamePaths (a ++ b) = gamePaths a ++ gamePaths b := by
  unfold gamePaths
  exact List.map_append _ _ _

/-- One task execution (fullscan off) carries the scan invariant forward,
extending the processed-path set by the task's ROM. -/
theorem taskStep_foundInv (env : Env) (c : Console) (rom : String) (db : DB)
    (doneP : List String) (hinv : FoundInv db.games doneP) :
    FoundInv (gamesDbRomTaskRun env c rom false db).2.games (rom :: doneP) := by
  obtain ⟨ha, hb, hc, hd⟩ := hinv
  cases hfind : db.games.find? (fun g => g.path == rom) with
  | some g0 =>
    have hg0mem : g0 ∈ db.games := List.mem_of_find?_eq_some hfind
    have hg0path : g0.path = rom := by
      have := List.find?_some hfind
      simpa using this
    rw [taskRun_rediscover hfind]
    dsimp only
    obtain ⟨l1, l2, hdec, hl1, hupd⟩ := find?_decomp setFound hfind
    rw [hupd]
    by_cases hg0f : g0.found = true
    · rw [setFound_of_found hg0f, ← hdec]
      refine ⟨ha, ?_, ?_, hd⟩
      · exact fun g hg hf => List.mem_cons_of_mem _ (hb g hg hf)
      · intro rom1 hrom1
        rcases List.mem_cons.mp hrom1 with h | h
        · exact ⟨g0, hg0mem, by rw [hg0path, h], hg0f⟩
        · exact hc rom1 h
    · have hg0f2 : g0.found = false := by simpa using hg0f
      have hmem2 : ∀ g : Game, g ∈ l1 ++ setFound g0 :: l2 ↔
          (g ∈ l1 ∨ g = setFound g0 ∨ g ∈ l2) := by
        intro g
        simp [List.mem_append, List.mem_cons]
      have hmemOld : ∀ g : Game, g ∈ db.games ↔ (g ∈ l1 ∨ g = g0 ∨ g ∈ l2) := by
        intro g
        rw [hdec]
        simp [List.mem_append, List.mem_cons]
      have hnotrom : ∀ y ∈ db.games, y.found = true → y.path ≠ rom := by
        intro y hy hf hyp
        have hy2 := hd y hy hf
        rw [hyp, hfind] at hy2
        have hgy : g0 = y := by injection hy2
        rw [← hgy, hg0f2] at hf
        exact Bool.noConfusion hf
      have hfa : foundGames (l1 ++ setFound g0 :: l2) =
          foundGames l1 ++ setFound g0 :: foundGames l2 := by
        unfold foundGames
        rw [List.filter_append]
        simp [List.filter_cons, setFound_found]
      have hfaOld : foundGames db.games = foundGames l1 ++ foundGames l2 := by
        unfold foundGames
        rw [hdec, List.filter_append]
        simp [List.filter_cons, hg0f2]
      have hNodupOld : (gamePaths (foundGames l1) ++ gamePaths (foundGames l2)).Nodup := by
        have h := ha
        rw [hfaOld, gamePaths_append] at h
        exact h
      refine ⟨?_, ?_, ?_, ?_⟩
      · rw [hfa]
        have hpaths : gamePaths (foundGames l1 ++ setFound g0 :: foundGames l2) =
            gamePaths (foundGames l1) ++ rom :: gamePaths (foundGames l2) := by
          rw [gamePaths_append]
          unfold gamePaths
          simp [setFound_path, hg0path]
        rw [hpaths, List.nodup_middle]
        apply List.nodup_cons.mpr
        refine ⟨?_, hNodupOld⟩
        intro hmem
        rcases List.mem_append.mp hmem with hm | hm
        · obtain ⟨y, hy, hyp⟩ := List.mem_map.mp hm
          have hy1 := (List.mem_filter.mp hy).1
          have hy2 := (List.mem_filter.mp hy).2
          exact hnotrom y ((hmemOld y).mpr (Or.inl hy1)) (by simpa using hy2) hyp
        · obtain ⟨y, hy, hyp⟩ := List.mem_map.mp hm
          have hy1 := (List.mem_filter.mp hy).1
          have hy2 := (List.mem_filter.mp hy).2
          exact hnotrom y ((hmemOld y).mpr (Or.inr (Or.inr hy1))) (by simpa using hy2) hyp
      · intro g hg hf
        rcases (hmem2 g).mp hg with hg2 | hg2 | hg2
        · exact List.mem_cons_of_mem _ (hb g ((hmemOld g).mpr (Or.inl hg2)) hf)
        · rw [hg2, setFound_path, hg0path]
          exact List.mem_cons_self _ _
        · exact List.mem_cons_of_mem _ (hb g ((hmemOld g).mpr (Or.inr (Or.inr hg2))) hf)
      · intro r hr
        rcases List.mem_cons.mp hr with hr2 | hr2
        · exact ⟨setFound g0, (hmem2 _).mpr (Or.inr (Or.inl rfl)),
            by rw [setFound_path, hg0path, hr2], setFound_found g0⟩
        · obtain ⟨g, hg, hgp, hgf⟩ := hc r hr2
          rcases (hmemOld g).mp hg with hg2 | hg2 | hg2
          · exact ⟨g, (hmem2 g).mpr (Or.inl hg2), hgp, hgf⟩
          · exfalso
            rw [hg2, hg0f2] at hgf
            exact Bool.noConfusion hgf
          · exact ⟨g, (hmem2 g).mpr (Or.inr (Or.inr hg2)), hgp, hgf⟩
      · have hdOldInNew : ∀ g ∈ db.games, g.found = true →
            (l1 ++ setFound g0 :: l2).find? (fun x => x.path == g.path) = some g := by
          intro g hg hf
          have hfd := hd g hg hf
          rw [hdec, List.find?_append] at hfd
          rw [List.find?_append]
          cases h1 : l1.find? (fun x => x.path == g.path) with
          | some y =>
            rw [h1] at hfd
            simpa using hfd
          | none =>
            rw [h1] at hfd
            rw [Option.none_or] at hfd ⊢
            rw [List.find?_cons] at hfd
            cases hp0 : (g0.path == g.path) with
            | true =>
              rw [hp0] at hfd
              have hgg : g0 = g := by injection hfd
              rw [← hgg, hg0f2] at hf
              exact Bool.noConfusion hf
            | false =>
              rw [hp0] at hfd
              rw [List.find?_cons]
              have hps : ((setFound g0).path == g.path) = false := by
                rw [setFound_path]
                exact hp0
              rw [hps]
              exact hfd
        intro g hg hf
        rcases (hmem2 g).mp hg with hg2 | hg2 | hg2
        · exact hdOldInNew g ((hmemOld g).mpr (Or.inl hg2)) hf
        · subst hg2
          rw [List.find?_append]
          have h1 : l1.find? (fun x => x.path == (setFound g0).path) = none := by
            apply List.find?_eq_none.mpr
            intro y hy
            rw [setFound_path, hg0path]
            simp [hl1 y hy]
          rw [h1, Option.none_or, List.find?_cons]
          have h2 : ((setFound g0).path == (setFound g0).path) = true := by simp
          rw [h2]
        · exact hdOldInNew g ((hmemOld g).mpr (Or.inr (Or.inr hg2))) hf
  | none =>
    obtain ⟨g2, hg2path, hg2found, hstate, hgames⟩ := taskRun_new false hfind
    rw [hgames]
    have hnone : ∀ y ∈ db.games, (y.path == rom) = false := by
      intro y hy
      have h := List.find?_eq_none.mp hfind y hy
      simpa using h
    have hnotrom : ∀ y ∈ db.games, y.path ≠ rom := by
      intro y hy hyp
      have h := hnone y hy
      rw [hyp] at h
      simp at h
    have hfa : foundGames (db.games ++ [g2]) = foundGames db.games ++ [g2] := by
      unfold foundGames
      rw [List.filter_append]
      simp [List.filter_cons, hg2found]
    refine ⟨?_, ?_, ?_, ?_⟩
    · rw [hfa, gamePaths_append]
      apply List.Nodup.append ha
      · simp [gamePaths]
      · intro x hx hx2
        simp only [gamePaths, List.map_cons, List.map_nil, List.mem_singleton] at hx2
        obtain ⟨y, hy, hyp⟩ := List.mem_map.mp hx
        have hy1 := (List.mem_filter.mp hy).1
        apply hnotrom y hy1
        rw [hyp, hx2, hg2path]
    · intro g hg hf
      rcases List.mem_append.mp hg with hg2 | hg2
      · exact List.mem_cons_of_mem _ (hb g hg2 hf)
      · rw [List.mem_singleton] at hg2
        subst hg2
        rw [hg2path]
        exact List.mem_cons_self _ _
    · intro r hr
      rcases List.mem_cons.mp hr with hr2 | hr2
      · exact ⟨g2, List.mem_append_right _ (List.mem_singleton_self g2),
          by rw [hg2path, hr2], hg2found⟩
      · obtain ⟨g, hg, hgp, hgf⟩ := hc r hr2
        exact ⟨g, List.mem_append_left _ hg, hgp, hgf⟩
    · intro g hg hf
      rcases List.mem_append.mp hg with hg2 | hg2
      · have hfd := hd g hg2 hf
        rw [List.find?_append, hfd]
        rfl
      · rw [List.mem_singleton] at hg2
        subst hg2
        rw [List.find?_append]
        have h1 : db.games.find? (fun x => x.path == g.path) = none := by
          apply List.find?_eq_none.mpr
          intro y hy
          rw [hg2path]
          simp [hnone y hy]
        rw [h1, Option.none_or, List.find?_cons]
        have h2 : (g.path == g.path) = true := by simp
        rw [h2]

/-- Executing a task list carries the invariant, collecting the ROM paths. -/
theorem runTasks_foundInv (env : Env) :
    ∀ (tasks : List (Console × String)) (db : DB) (doneP : List String),
      FoundInv db.games doneP →
      FoundInv (runTasks env false tasks db).2.games (taskRoms tasks ++ doneP) := by
  intro tasks
  induction tasks with
  | nil =>
    intro db doneP h
    simpa [runTasks, taskRoms] using h
  | cons t rest ih =>
    intro db doneP h
    obtain ⟨c, rom⟩ := t
    have h1 := taskStep_foundInv env c rom db doneP h
    have h2 := ih (gamesDbRomTaskRun env c rom false db).2 (rom :: doneP) h1
    unfold runTasks
    dsimp only
    apply foundInv_congr ?_ h2
    intro x
    simp only [taskRoms, List.map_cons, List.mem_append, List.mem_cons]
    tauto

/-- When every task's path already has a row, the whole batch returns
Skipped and the game table only receives found-flag flips. -/
theorem runTasks_covered (env : Env) :
    ∀ (tasks : List (Console × String)) (db : DB),
      (∀ t ∈ tasks, t.2 ∈ gamePaths db.games) →
      (∀ r ∈ (runTasks env false tasks db).1, r.state = .skipped) ∧
      (runTasks env false tasks db).2.games =
        tasks.foldl (fun gs t => updateFirst (fun g => g.path == t.2) setFound gs) db.games := by
  intro tasks
  induction tasks with
  | nil =>
    intro db hcov
    exact ⟨by simp [runTasks], by simp [runTasks]⟩
  | cons t rest ih =>
    intro db hcov
    obtain ⟨c, rom⟩ := t
    have hex : ∃ g0, db.games.find? (fun g => g.path == rom) = some g0 := by
      have hmem : rom ∈ gamePaths db.games := hcov (c, rom) (List.mem_cons_self _ _)
      obtain ⟨g, hg, hgp⟩ := List.mem_map.mp hmem
      have hsome : (db.games.find? (fun g => g.path == rom)).isSome :=
        List.find?_isSome.mpr ⟨g, hg, by simp [hgp]⟩
      exact Option.isSome_iff_exists.mp hsome
    obtain ⟨g0, hfind⟩ := hex
    have hstep : gamesDbRomTaskRun env c rom false db =
        (⟨.skipped, g0.name, g0.coverartFront⟩,
         { db with games := updateFirst (fun g => g.path == rom) setFound db.games }) :=
      taskRun_rediscover hfind
    have hcov2 : ∀ t ∈ rest, t.2 ∈ gamePaths (gamesDbRomTaskRun env c rom false db).2.games := by
      intro t ht
      rw [hstep]
      dsimp only
      rw [show gamePaths (updateFirst (fun g => g.path == rom) setFound db.games) =
            gamePaths db.games from map_updateFirst _ setFound (fun g => g.path)
            (fun x => rfl) db.games]
      exact hcov t (List.mem_cons_of_mem _ ht)
    obtain ⟨ihres, ihgames⟩ := ih (gamesDbRomTaskRun env c rom false db).2 hcov2
    constructor
    · intro r hr
      unfold runTasks at hr
      dsimp only at hr
      rcases List.mem_cons.mp hr with hr2 | hr2
      · rw [hr2, hstep]
      · exact ihres r hr2
    · unfold runTasks
      dsimp only
      rw [ihgames, List.foldl_cons]
      congr 1
      rw [hstep]

theorem taskRoms_cons (c : Console) (rom : String) (rest : List (Console × String)) :
    taskRoms ((c, rom) :: rest) = rom :: taskRoms rest := rfl

/-- After folding the found-flag updates of a covering task list over a
table with pairwise distinct paths, every row is found. -/
theorem foldl_setFound_all_found :
    ∀ (tasks : List (Console × String)) (gs : List Game),
      (gamePaths gs).Nodup →
      (∀ g ∈ gs, g.found = true ∨ g.path ∈ taskRoms tasks) →
      ∀ g ∈ tasks.foldl (fun acc t => updateFirst (fun g => g.path == t.2) setFound acc) gs,
        g.found = true := by
  intro tasks
  induction tasks with
  | nil =>
    intro gs hnd hcov g hg
    rcases hcov g hg with h | h
    · exact h
    · simp [taskRoms] at h
  | cons t rest ih =>
    intro gs hnd hcov g hg
    rw [List.foldl_cons] at hg
    obtain ⟨c, rom⟩ := t
    apply ih (updateFirst (fun g => g.path == rom) setFound gs) ?_ ?_ g hg
    · rw [show gamePaths (updateFirst (fun g => g.path == rom) setFound gs) =
          gamePaths gs from map_updateFirst _ setFound (fun g => g.path) (fun x => rfl) gs]
      exact hnd
    · intro g1 hg1
      cases hfind : gs.find? (fun g => g.path == rom) with
      | none =>
        rw [updateFirst_of_find?_none hfind] at hg1
        rcases hcov g1 hg1 with h | h
        · exact Or.inl h
        · rw [taskRoms_cons] at h
          rcases List.mem_cons.mp h with h2 | h2
          · exfalso
            have hne := List.find?_eq_none.mp hfind g1 hg1
            simp [h2] at hne
          · exact Or.inr h2
      | some x =>
        obtain ⟨l1, l2, hdec, hl1, hupd⟩ := find?_decomp setFound hfind
        rw [hupd] at hg1
        rcases List.mem_append.mp hg1 with h | h
        · have hxp : (g1.path == rom) = false := hl1 g1 h
          have hg1mem : g1 ∈ gs := by
            rw [hdec]
            exact List.mem_append_left _ h
          rcases hcov g1 hg1mem with hcase | hcase
          · exact Or.inl hcase
          · rw [taskRoms_cons] at hcase
            rcases List.mem_cons.mp hcase with h2 | h2
            · exfalso
              rw [h2] at hxp
              simp at hxp
            · exact Or.inr h2
        · rcases List.mem_cons.mp h with h2 | h2
          · rw [h2]
            exact Or.inl (setFound_found x)
          · have hg1mem : g1 ∈ gs := by
              rw [hdec]
              exact List.mem_append_right _ (List.mem_cons_of_mem _ h2)
            rcases hcov g1 hg1mem with hcase | hcase
            · exact Or.inl hcase
            · rw [taskRoms_cons] at hcase
              rcases List.mem_cons.mp hcase with h2b | h2b
              · exfalso
                have hxrom : x.path = rom := by
                  have hps := List.find?_some hfind
                  simpa using hps
                rw [hdec, gamePaths_append] at hnd
                have hnd2 := hnd.of_append_right
                have hcons : gamePaths (x :: l2) = x.path :: gamePaths l2 := by
                  simp [gamePaths]
                rw [hcons] at hnd2
                have hnotin := (List.nodup_cons.mp hnd2).1
                apply hnotin
                rw [hxrom, ← h2b]
                exact List.mem_map.mpr ⟨g1, h2, rfl⟩
              · exact Or.inr h2b

theorem scanRun_results (env : Env) (tasks : List (Console × String)) (db : DB) :
    (scanRun env false tasks db).2.1 =
      (runTasks env false tasks
        { db with games := db.games.map (fun g => { g with found := false }) }).1 := rfl

theorem scanRun_games (env : Env) (tasks : List (Console × String)) (db : DB) :
    (scanRun env false tasks db).2.2.games =
      (reconcile false (runTasks env false tasks
        { db with games := db.games.map (fun g => { g with found := false }) }).2.games).1 := rfl

theorem scanRun_added (env : Env) (tasks : List (Console × String)) (db : DB) :
    (scanRun env false tasks db).1.added =
      ((scanRun env false tasks db).2.1.filter (fun r => r.state == .added)).length := rfl

theorem scanRun_updated (env : Env) (tasks : List (Console × String)) (db : DB) :
    (scanRun env false tasks db).1.updated =
      ((scanRun env false tasks db).2.1.filter (fun r => r.state == .updated)).length := rfl

theorem scanRun_deleted (env : Env) (tasks : List (Console × String)) (db : DB) :
    (scanRun env false tasks db).1.deleted =
      (reconcile false (runTasks env false tasks
        { db with games := db.games.map (fun g => { g with found := false }) }).2.games).2 := rfl

theorem reconcile_false_eq (games : List Game) :
    reconcile false games =
      (foundGames games, (games.filter (fun g => !g.found)).length) := by
  unfold reconcile foundGames
  dsimp only
  rw [List.filter_congr (fun (g : Game) _ => show (!(g.found == false)) = g.found by
        cases g.found <;> rfl),
      List.filter_congr (fun (g : Game) _ => show (g.found == false) = !g.found by
        cases g.found <;> rfl)]
  rfl

theorem gamePaths_markNotFound (gs : List Game) :
    gamePaths (gs.map (fun g => { g with found := false })) = gamePaths gs := by
  unfold gamePaths
  rw [List.map_map]
  rfl

/-- Claim C4: running the full library scan twice in succession, with the
same environment (file system, HTTP responses, catalogs) and the same
enumerated task list, yields on the second run Added = 0, Updated = 0 and
Deleted = 0, with every task returning Skipped. -/
theorem c4_second_scan_all_skipped (env : Env) (tasks : List (Console × String)) (db : DB) :
    (scanRun env false tasks ((scanRun env false tasks db).2.2)).1.added = 0 ∧
    (scanRun env false tasks ((scanRun env false tasks db).2.2)).1.updated = 0 ∧
    (scanRun env false tasks ((scanRun env false tasks db).2.2)).1.deleted = 0 ∧
    (∀ r ∈ (scanRun env false tasks ((scanRun env false tasks db).2.2)).2.1,
      r.state = .skipped) := by
  -- the state after the first run
  set db1 : DB := (scanRun env false tasks db).2.2 with hdb1
  -- invariant established by the first run
  have hinit : FoundInv (db.games.map (fun g => { g with found := false })) [] := by
    apply foundInv_init
    intro g hg
    obtain ⟨g0, hg0, hgeq⟩ := List.mem_map.mp hg
    rw [← hgeq]
  have hinv1 := runTasks_foundInv env tasks
    { db with games := db.games.map (fun g => { g with found := false }) } [] hinit
  obtain ⟨ha, hb, hc, hd⟩ := hinv1
  -- the surviving table of run 1 is the found rows
  have hG1 : db1.games = foundGames (runTasks env false tasks
      { db with games := db.games.map (fun g => { g with found := false }) }).2.games := by
    rw [hdb1, scanRun_games, reconcile_false_eq]
  -- every task path survives into db1
  have hcov1 : ∀ t ∈ tasks, t.2 ∈ gamePaths db1.games := by
    intro t ht
    have htr : t.2 ∈ taskRoms tasks ++ [] :=
      List.mem_append_left _ (List.mem_map.mpr ⟨t, ht, rfl⟩)
    obtain ⟨g, hg, hgp, hgf⟩ := hc t.2 htr
    rw [hG1]
    exact List.mem_map.mpr ⟨g, List.mem_filter.mpr ⟨hg, by simp [hgf]⟩, hgp⟩
  -- every surviving row's path is a task path
  have hsub1 : ∀ g ∈ db1.games, g.path ∈ taskRoms tasks := by
    intro g hg
    rw [hG1] at hg
    have hmf := List.mem_filter.mp hg
    have := hb g hmf.1 (by simpa using hmf.2)
    simpa using this
  -- surviving paths are pairwise distinct
  have hnd1 : (gamePaths db1.games).Nodup := by
    rw [hG1]
    exact ha
  -- the second run's prepared table
  set gs2 : List Game := db1.games.map (fun g => { g with found := false }) with hgs2
  have hnd2 : (gamePaths gs2).Nodup := by
    rw [hgs2, gamePaths_markNotFound]
    exact hnd1
  have hcov2 : ∀ t ∈ tasks, t.2 ∈ gamePaths gs2 := by
    intro t ht
    rw [hgs2, gamePaths_markNotFound]
    exact hcov1 t ht
  have hcovf : ∀ g ∈ gs2, g.found = true ∨ g.path ∈ taskRoms tasks := by
    intro g hg
    rw [hgs2] at hg
    obtain ⟨g0, hg0, hgeq⟩ := List.mem_map.mp hg
    right
    rw [← hgeq]
    exact hsub1 g0 hg0
  obtain ⟨hres, hgames⟩ := runTasks_covered env tasks { db1 with games := gs2 } hcov2
  have hallfound : ∀ g ∈ (runTasks env false tasks { db1 with games := gs2 }).2.games,
      g.found = true := by
    rw [hgames]
    exact foldl_setFound_all_found tasks gs2 hnd2 hcovf
  have hallskip : ∀ r ∈ (scanRun env false tasks db1).2.1, r.state = .skipped := by
    rw [scanRun_results]
    exact hres
  refine ⟨?_, ?_, ?_, hallskip⟩
  · rw [scanRun_added]
    rw [List.filter_eq_nil_iff.mpr ?_]
    · rfl
    · intro r hr
      rw [hallskip r hr]
      simp
  · rw [scanRun_updated]
    rw [List.filter_eq_nil_iff.mpr ?_]
    · rfl
    · intro r hr
      rw [hallskip r hr]
      simp
  · rw [scanRun_deleted, reconcile_false_eq]
    dsimp only
    rw [List.filter_eq_nil_iff.mpr ?_]
    · rfl
    · intro g hg
      rw [hallfound g hg]
      simp

end PesScan
